import Mathlib

/-!
# Verification of the bucky metrics pipeline

A shallow embedding of the push pipeline of the `bucky3` repository:
the carbon plaintext encoder (`bucky/carbon.py`), the Elasticsearch bulk
encoder (`bucky3/elasticsearch.py`) and the supervisor (`bucky/main.py`).

Python dictionaries are modelled as insertion-ordered association lists
(`List (String × α)`); a genuine `dict` always has pairwise distinct keys,
which appears as a `Nodup` hypothesis where it matters.  Fallible Python
code (`dict.pop` raising `KeyError`) is modelled with `Option`.
-/

namespace Bucky

/-- Python `d[k]` / `k in d` on an insertion-ordered association list:
the value of the first entry whose key is `k`. -/
def dlookup (k : String) : List (String × α) → Option α
  | [] => none
  | (k2, v) :: rest => if k2 = k then some v else dlookup k rest

/-- The keys of an association list, in insertion order (`d.keys()`). -/
def dkeys (m : List (String × α)) : List String :=
  m.map Prod.fst

/-- Python `d[k] = v`: replace the value in place if the key is present
(keeping its position, as a `dict` does), otherwise append a new entry. -/
def dictSet : List (String × α) → String → α → List (String × α)
  | [], k, v => [(k, v)]
  | (k2, v2) :: rest, k, v =>
      if k2 = k then (k2, v) :: rest else (k2, v2) :: dictSet rest k v

/-- Python `d.pop(k)` (no default): remove the first entry with key `k` and
return its value together with the remaining entries; `none` models the
`KeyError` raised when the key is absent. -/
def popKey : List (String × α) → String → Option (α × List (String × α))
  | [], _ => none
  | (k2, v2) :: rest, k =>
      if k2 = k then some (v2, rest)
      else (popKey rest k).map (fun p => (p.1, (k2, v2) :: p.2))

/-- Sequential `d.pop(k)` for each `k` of the list, threading the shrinking
dictionary; fails (models `KeyError`) as soon as one key is missing. -/
def popAll : List String → List (String × α) → Option (List α × List (String × α))
  | [], m => some ([], m)
  | k :: ks, m =>
      match popKey m k with
      | none => none
      | some (v, m2) => (popAll ks m2).map (fun p => (v :: p.1, p.2))

/-- Lexicographic comparison of character lists by code point, i.e. exactly
Python's `str` comparison. -/
def lexLe : List Char → List Char → Bool
  | [], _ => true
  | _ :: _, [] => false
  | c :: cs, d :: ds =>
      if c.toNat < d.toNat then true
      else if d.toNat < c.toNat then false
      else lexLe cs ds

/-- Python `s1 <= s2` on strings. -/
def strLe (a b : String) : Bool :=
  lexLe a.data b.data

/-- Python `sorted` on strings (lexicographic by code point). -/
def sortKeys (l : List String) : List String :=
  List.insertionSort (fun a b => strLe a b = true) l

/-- `CarbonClient.build_name` (src/bucky/carbon.py lines 31-35), transliterated:

    found_mappings = tuple(k for k in self.cfg['name_mapping'] if k in metadata)
    buf = [metadata.pop(k) for k in found_mappings]
    buf.extend(metadata[k] for k in sorted(metadata.keys()))
    return '.'.join(buf)

`none` models the `KeyError` that `metadata.pop(k)` raises when `name_mapping`
lists the same present key twice (the first pop consumes it). -/
def build_name (o : List String) (m : List (String × String)) : Option String :=
  let found := o.filter (fun k => (dlookup k m).isSome)
  match popAll found m with
  | none => none
  | some (buf, rest) =>
      some (String.intercalate "." (buf ++ (sortKeys (dkeys rest)).filterMap (fun k => dlookup k rest)))

/-- The metric name as §4.4 of the spec words it: the values of the configured
keys present in `m`, in configured order, followed by the values of all
remaining keys sorted lexicographically, joined with `.`. -/
def build_name_spec (o : List String) (m : List (String × String)) : String :=
  let found := o.filter (fun k => (dlookup k m).isSome)
  let rest := (dkeys m).filter (fun k => ¬ found.contains k)
  String.intercalate "."
    (found.filterMap (fun k => dlookup k m) ++ (sortKeys rest).filterMap (fun k => dlookup k m))

/-!
## Numeric metric values

Metric values and timestamps are Python numbers.  `str()` of an `int` is its
decimal numeral; `str()` (= `repr`) of a `float` is its shortest decimal
form, e.g. `str(97.5) == '97.5'`.  We model such numbers as exact decimal
numerals — a sign, the integer-part digits, and (for a float) the digits
after the decimal point — which is precisely the information the wire
format carries; binary-float rounding artifacts are outside the model. -/

/-- A Python number as printed by `str`: `neg` the sign, `ip` the integer-part
digits (most significant first), `frac = none` for an `int` and
`frac = some ds` for a float printed with digits `ds` after the point. -/
structure PyNum where
  neg : Bool
  ip : List Nat
  frac : Option (List Nat)
  deriving DecidableEq, Repr

/-- Canonical-numeral invariant: digits are decimal digits, the integer part
is a numeral without spurious leading zeros, a float prints at least one
fractional digit, and a negative `int` is nonzero (no `-0`). -/
def PyNum.WF (v : PyNum) : Prop :=
  (∀ d ∈ v.ip, d < 10) ∧ v.ip ≠ [] ∧ (v.ip.head? = some 0 → v.ip = [0]) ∧
    (match v.frac with
     | none => v.neg = true → v.ip ≠ [0]
     | some ds => ds ≠ [] ∧ ∀ d ∈ ds, d < 10)

instance (v : PyNum) : Decidable v.WF := by
  unfold PyNum.WF
  cases v.frac <;> exact inferInstance

/-- The character of a decimal digit. -/
def digitChar (d : Nat) : Char :=
  Char.ofNat (48 + d)

/-- Render a digit list as a string. -/
def digitsStr (ds : List Nat) : String :=
  ⟨ds.map digitChar⟩

/-- Python `str` of a number (`'%s' % v`). -/
def pystr (v : PyNum) : String :=
  (if v.neg then "-" else "") ++ digitsStr v.ip ++
    (match v.frac with
     | none => ""
     | some ds => "." ++ digitsStr ds)

/-- Python `int(v)`: truncation toward zero; `int(-0.5)` is `0`, not `-0`. -/
def pyint (v : PyNum) : PyNum :=
  match v.frac with
  | none => v
  | some _ => ⟨v.neg && !(v.ip == [0]), v.ip, none⟩

/-- `CarbonClient.process_values` (src/bucky/carbon.py lines 37-43),
transliterated: for each field `(k, v)` of `values`, copy `metadata`, do
`value_metadata.update(bucket=bucket, value=k)`, build the metric name and
append `"%s %s %s\n" % (name, v, int(timestamp))` to the buffer.  The
returned list holds the appended fragments in order; `none` models a
`KeyError` escaping from `build_name`. -/
def carbon_process_values (o : List String) (bucket : String)
    (values : List (String × PyNum)) (timestamp : PyNum)
    (metadata : List (String × String)) : Option (List String) :=
  values.mapM (fun kv =>
    (build_name o (dictSet (dictSet metadata "bucket" bucket) "value" kv.1)).map
      (fun name => name ++ " " ++ pystr kv.2 ++ " " ++ pystr (pyint timestamp) ++ "\n"))

/-!
## Parsing a plaintext line back

A line is `<name> <value> <integer timestamp>\n`.  Since the name may itself
contain arbitrary metadata characters, the round-trip parser splits at the
*last* two spaces (like `line.rsplit(' ', 2)`). -/

/-- The digit denoted by a character, if any. -/
def charDigit (c : Char) : Option Nat :=
  if 48 ≤ c.toNat ∧ c.toNat ≤ 57 then some (c.toNat - 48) else none

/-- Split a character list into its maximal leading run of digits and the rest. -/
def parseDigits : List Char → List Nat × List Char
  | [] => ([], [])
  | c :: rest =>
      match charDigit c with
      | some d => (d :: (parseDigits rest).1, (parseDigits rest).2)
      | none => ([], c :: rest)

/-- Parse a whole token as a Python numeral (sign, digits, optional fraction). -/
def parseNum (s : String) : Option PyNum :=
  let sc : Bool × List Char :=
    match s.data with
    | [] => (false, [])
    | c :: r => if c = '-' then (true, r) else (false, c :: r)
  let ic := parseDigits sc.2
  if ic.1 = [] then none
  else
    match ic.2 with
    | [] => some ⟨sc.1, ic.1, none⟩
    | c :: r =>
        if c = '.' then
          let fc := parseDigits r
          if fc.1 = [] ∨ fc.2 ≠ [] then none else some ⟨sc.1, ic.1, some fc.1⟩
        else none

/-- Split a character list at its first space. -/
def breakAtSpace : List Char → Option (List Char × List Char)
  | [] => none
  | c :: r => if c = ' ' then some ([], r) else (breakAtSpace r).map (fun p => (c :: p.1, p.2))

/-- Parse one plaintext line back into `(name, value, timestamp)`: strip the
trailing newline and split at the last two spaces. -/
def parse_line (s : String) : Option (String × PyNum × PyNum) :=
  match s.data.reverse with
  | [] => none
  | c :: rcs =>
      if c = '\n' then
        match breakAtSpace rcs with
        | none => none
        | some (rts, r1) =>
            match breakAtSpace r1 with
            | none => none
            | some (rv, rname) =>
                match parseNum ⟨rv.reverse⟩, parseNum ⟨rts.reverse⟩ with
                | some v, some ts => some (⟨rname.reverse⟩, v, ts)
                | _, _ => none
      else none

/-!
## JSON documents (bulk encoder, src/bucky3/elasticsearch.py)

Document fields hold Python strings, numbers or `None`.  `json.dumps(...,
sort_keys=True, indent=None, separators=(',', ':'))` prints a minified
object with keys sorted and (`ensure_ascii`) everything outside printable
ASCII escaped. -/

/-- A JSON-serializable document field value. -/
inductive PyVal where
  | s (v : String)
  | n (v : PyNum)
  | null
  deriving DecidableEq, Repr

/-- A hexadecimal digit character (lowercase, as Python prints). -/
def hexDigitChar (d : Nat) : Char :=
  Char.ofNat (if d < 10 then 48 + d else 87 + d)

/-- Four-digit hex of a code unit, for `\uXXXX` escapes. -/
def hex4 (n : Nat) : List Char :=
  [hexDigitChar (n / 4096 % 16), hexDigitChar (n / 256 % 16),
   hexDigitChar (n / 16 % 16), hexDigitChar (n % 16)]

/-- `json.dumps` escaping of one character (`ensure_ascii=True`): quote and
backslash escaped, printable ASCII kept, the usual short escapes, other
code points as `\uXXXX` (surrogate pairs beyond the BMP). -/
def escChar (c : Char) : List Char :=
  if c = '"' then ['\\', '"']
  else if c = '\\' then ['\\', '\\']
  else if 32 ≤ c.toNat ∧ c.toNat ≤ 126 then [c]
  else if c.toNat = 8 then ['\\', 'b']
  else if c.toNat = 9 then ['\\', 't']
  else if c.toNat = 10 then ['\\', 'n']
  else if c.toNat = 12 then ['\\', 'f']
  else if c.toNat = 13 then ['\\', 'r']
  else if c.toNat < 65536 then '\\' :: 'u' :: hex4 c.toNat
  else '\\' :: 'u' :: hex4 (55296 + (c.toNat - 65536) / 1024) ++
       '\\' :: 'u' :: hex4 (56320 + (c.toNat - 65536) % 1024)

/-- A JSON string literal. -/
def jsonQuote (v : String) : String :=
  ⟨'"' :: v.data.flatMap escChar ++ ['"']⟩

/-- One serialized JSON value. -/
def jsonValStr : PyVal → String
  | .s v => jsonQuote v
  | .n v => pystr v
  | .null => "null"

/-- `json.dumps(m, sort_keys=True, indent=None, separators=(',', ':'))`:
a minified object with entries in sorted key order. -/
def jsonDump (m : List (String × PyVal)) : String :=
  "\x7b" ++
    String.intercalate ","
      ((sortKeys (dkeys m)).filterMap
        (fun k => (dlookup k m).map (fun v => jsonQuote k ++ ":" ++ jsonValStr v))) ++
    "\x7d"

/-!
## ES timestamp formatting

`datetime.utcfromtimestamp(t).strftime('%Y-%m-%d %H:%M:%S.%f')[:-3]`:
UTC civil time with millisecond precision and no timezone suffix.
Epoch seconds are modelled as exact rationals; `utcfromtimestamp` rounds
to whole microseconds (round-half-even, like Python's `round`). -/

/-- Round `n / d` (with `d > 0`) to the nearest integer, ties to even, using
only integer arithmetic (`f` the floor, `r2` twice the remainder). -/
def rheDiv (n d : Int) : Int :=
  let f := n.fdiv d
  let r2 := 2 * (n - f * d)
  if r2 < d then f
  else if d < r2 then f + 1
  else if f % 2 = 0 then f else f + 1

/-- Whole microseconds of an epoch-seconds value, rounded half-even the way
`datetime.utcfromtimestamp` rounds its fractional input. -/
def epochMicros (t : ℚ) : Int :=
  rheDiv (t.num * 1000000) (t.den : Int)

/-- Proleptic-Gregorian date of a day count from 1970-01-01 (year, month, day);
the standard `civil_from_days` algorithm. -/
def civilFromDays (z : Int) : Int × Nat × Nat :=
  let z2 := z + 719468
  let era := z2.fdiv 146097
  let doe := (z2 - era * 146097).toNat
  let yoe := (doe - doe / 1460 + doe / 36524 - doe / 146096) / 365
  let doy := doe - (365 * yoe + yoe / 4 - yoe / 100)
  let mp := (5 * doy + 2) / 153
  let d := doy - (153 * mp + 2) / 5 + 1
  let m := if mp < 10 then mp + 3 else mp - 9
  (era * 400 + yoe + (if m ≤ 2 then 1 else 0), m, d)

/-- Zero-pad a number to two digits. -/
def pad2 (n : Nat) : String :=
  (if n < 10 then "0" else "") ++ toString n

/-- Zero-pad a number to three digits. -/
def pad3 (n : Nat) : String :=
  (if n < 10 then "00" else if n < 100 then "0" else "") ++ toString n

/-- Zero-pad a (nonnegative) year to four digits. -/
def pad4 (y : Int) : String :=
  let n := y.toNat
  (if n < 10 then "000" else if n < 100 then "00" else if n < 1000 then "0" else "") ++ toString n

/-- The ES wire timestamp `YYYY-MM-DD HH:MM:SS.mmm` of epoch seconds `t`. -/
def tsStr (t : ℚ) : String :=
  let micros := epochMicros t
  let days := micros.fdiv 86400000000
  let rem := (micros - days * 86400000000).toNat
  let c := civilFromDays days
  let secs := rem / 1000000
  pad4 c.1 ++ "-" ++ pad2 c.2.1 ++ "-" ++ pad2 c.2.2 ++ " " ++
    pad2 (secs / 3600) ++ ":" ++ pad2 (secs % 3600 / 60) ++ ":" ++ pad2 (secs % 60) ++
    "." ++ pad3 (rem % 1000000 / 1000)

/-!
## uuid5 document ids

`uuid.uuid5(uuid.NAMESPACE_DNS, doc_str)` is the SHA-1 of the namespace
bytes followed by the UTF-8 name, truncated to 16 bytes with the version
and variant bits set, printed as the usual lowercase hex groups.  SHA-1 is
implemented here directly over byte lists (`Nat`s below 256), with 32-bit
words as `Nat` reduced `% 2 ^ 32`. -/

/-- UTF-8 bytes of one character. -/
def utf8Char (c : Char) : List Nat :=
  let n := c.toNat
  if n < 128 then [n]
  else if n < 2048 then [192 + n / 64, 128 + n % 64]
  else if n < 65536 then [224 + n / 4096, 128 + n / 64 % 64, 128 + n % 64]
  else [240 + n / 262144, 128 + n / 4096 % 64, 128 + n / 64 % 64, 128 + n % 64]

/-- UTF-8 encoding of a string (`str.encode('utf-8')`). -/
def utf8Encode (s : String) : List Nat :=
  s.data.flatMap utf8Char

/-- Combine two numbers bit by bit over `fuel` low bits. -/
def bitsCombine (f : Nat → Nat → Nat) : Nat → Nat → Nat → Nat
  | 0, _, _ => 0
  | fuel + 1, a, b => f (a % 2) (b % 2) + 2 * bitsCombine f fuel (a / 2) (b / 2)

/-- Bitwise XOR on 32-bit words. -/
def xor32 (a b : Nat) : Nat :=
  bitsCombine (fun x y => (x + y) % 2) 32 a b

/-- Bitwise AND on 32-bit words. -/
def and32 (a b : Nat) : Nat :=
  bitsCombine (fun x y => x * y) 32 a b

/-- Bitwise OR on 32-bit words. -/
def or32 (a b : Nat) : Nat :=
  bitsCombine (fun x y => x + y - x * y) 32 a b

/-- Bitwise complement of a 32-bit word. -/
def not32 (a : Nat) : Nat :=
  4294967295 - a % 4294967296

/-- Left-rotation of a 32-bit word by `n` bits. -/
def rotl (n x : Nat) : Nat :=
  (x % 2 ^ (32 - n)) * 2 ^ n + x / 2 ^ (32 - n)

/-- The `k` big-endian base-256 digits of `n`. -/
def bytesBE : Nat → Nat → List Nat
  | 0, _ => []
  | k + 1, n => bytesBE k (n / 256) ++ [n % 256]

/-- Big-endian 32-bit words of a byte list. -/
def wordsOf : List Nat → List Nat
  | b1 :: b2 :: b3 :: b4 :: rest => (((b1 * 256 + b2) * 256 + b3) * 256 + b4) :: wordsOf rest
  | _ => []

/-- Split a byte list into 64-byte chunks (`fuel` bounds the recursion). -/
def chunk64 : Nat → List Nat → List (List Nat)
  | 0, _ => []
  | _, [] => []
  | fuel + 1, bs => bs.take 64 :: chunk64 fuel (bs.drop 64)

/-- The SHA-1 round constant for round `i`. -/
def sha1K (i : Nat) : Nat :=
  if i < 20 then 1518500249
  else if i < 40 then 1859775393
  else if i < 60 then 2400959708
  else 3395469782

/-- The SHA-1 round function for round `i`. -/
def sha1F (i b c d : Nat) : Nat :=
  if i < 20 then or32 (and32 b c) (and32 (not32 b) d)
  else if i < 40 then xor32 b (xor32 c d)
  else if i < 60 then or32 (or32 (and32 b c) (and32 b d)) (and32 c d)
  else xor32 b (xor32 c d)

/-- Extend the 16 block words (given in reverse in `acc`) by `k` more
schedule words; returns all words in order. -/
def sha1Ws (acc : List Nat) : Nat → List Nat
  | 0 => acc.reverse
  | k + 1 =>
      sha1Ws (rotl 1 (xor32 (xor32 (acc.getD 2 0) (acc.getD 7 0))
        (xor32 (acc.getD 13 0) (acc.getD 15 0))) :: acc) k

/-- The 80 SHA-1 rounds over the indexed schedule words. -/
def sha1Rounds : List (Nat × Nat) → Nat × Nat × Nat × Nat × Nat → Nat × Nat × Nat × Nat × Nat
  | [], st => st
  | (i, w) :: rest, (a, b, c, d, e) =>
      sha1Rounds rest
        ((rotl 5 a + sha1F i b c d + e + sha1K i + w) % 4294967296, a, rotl 30 b, c, d)

/-- Process one 64-byte block into the running hash state. -/
def sha1Block (h : Nat × Nat × Nat × Nat × Nat) (block : List Nat) : Nat × Nat × Nat × Nat × Nat :=
  let w := sha1Ws (wordsOf block).reverse 64
  let r := sha1Rounds ((List.range 80).zip w) h
  ((h.1 + r.1) % 4294967296, (h.2.1 + r.2.1) % 4294967296, (h.2.2.1 + r.2.2.1) % 4294967296,
   (h.2.2.2.1 + r.2.2.2.1) % 4294967296, (h.2.2.2.2 + r.2.2.2.2) % 4294967296)

/-- SHA-1 digest (20 bytes) of a byte list. -/
def sha1 (msg : List Nat) : List Nat :=
  let padded := msg ++ 128 :: List.replicate ((119 - msg.length % 64) % 64) 0 ++
    bytesBE 8 (msg.length * 8 % 18446744073709551616)
  let h := (chunk64 padded.length padded).foldl sha1Block
    (1732584193, 4023233417, 2562383102, 271733878, 3285377520)
  bytesBE 4 h.1 ++ bytesBE 4 h.2.1 ++ bytesBE 4 h.2.2.1 ++ bytesBE 4 h.2.2.2.1 ++ bytesBE 4 h.2.2.2.2

/-- Replace the element at an index of a list. -/
def setAt : List Nat → Nat → (Nat → Nat) → List Nat
  | [], _, _ => []
  | x :: rest, 0, f => f x :: rest
  | x :: rest, k + 1, f => x :: setAt rest k f

/-- The two lowercase hex digits of a byte. -/
def hexByte (n : Nat) : List Char :=
  [hexDigitChar (n / 16 % 16), hexDigitChar (n % 16)]

/-- Lowercase hex string of a byte list. -/
def hexBytes (bs : List Nat) : List Char :=
  bs.flatMap hexByte

/-- The bytes of `uuid.NAMESPACE_DNS`, `6ba7b810-9dad-11d1-80b4-00c04fd430c8`. -/
def NAMESPACE_DNS : List Nat :=
  [107, 167, 184, 16, 157, 173, 17, 209, 128, 180, 0, 192, 79, 212, 48, 200]

/-- `str(uuid.uuid5(ns, name))`: SHA-1 of namespace bytes plus UTF-8 name,
first 16 bytes, version nibble set to 5 and variant bits to `10`,
formatted as `xxxxxxxx-xxxx-xxxx-xxxx-xxxxxxxxxxxx`. -/
def uuid5 (ns : List Nat) (name : String) : String :=
  let h := (sha1 (ns ++ utf8Encode name)).take 16
  let b := setAt (setAt h 6 (fun x => x % 16 + 80)) 8 (fun x => x % 64 + 128)
  ⟨hexBytes (b.take 4) ++ '-' :: hexBytes ((b.drop 4).take 2) ++
    '-' :: hexBytes ((b.drop 6).take 2) ++ '-' :: hexBytes ((b.drop 8).take 2) ++
    '-' :: hexBytes (b.drop 10)⟩

/-!
## The bulk encoder (`ElasticsearchClient.process_values`)

`merge_dict` is defined in `bucky3/module.py`, which is not part of the
sources here; it is modelled from the spec. -/

/-- Modelled from the spec: `merge_dict` (from the missing `bucky3/module.py`;
§4.5 "merge `metadata` into `values` (values win on key collision — metadata
supplies defaults, explicit field values override)").  Entries of `defaults`
are added to `target` only for keys not already present. -/
def merge_dict (target defaults : List (String × PyVal)) : List (String × PyVal) :=
  target ++ defaults.filter (fun kv => (dlookup kv.1 target).isNone)

/-- `timestamp = timestamp or recv_timestamp`: a missing or falsy (zero)
event timestamp is replaced by the receive timestamp. -/
def es_effective_ts (timestamp : Option ℚ) (recv : ℚ) : ℚ :=
  match timestamp with
  | none => recv
  | some t => if t.num = 0 then recv else t

/-- The document body before index-name handling: `values` after the two
`merge_dict` calls and `values['timestamp'] = timestamp_str`. -/
def es_doc (cfgMeta metadata values : List (String × PyVal)) (timestamp : Option ℚ)
    (recv : ℚ) : List (String × PyVal) :=
  dictSet (merge_dict values (merge_dict metadata cfgMeta)) "timestamp"
    (PyVal.s (tsStr (es_effective_ts timestamp recv)))

/-- The document id of a document body:
`doc_str = json.dumps(values, sort_keys=True, indent=None, separators=(',', ':'))`
then `doc_id = str(uuid.uuid5(uuid.NAMESPACE_DNS, doc_str))`. -/
def es_doc_id (doc : List (String × PyVal)) : String :=
  uuid5 NAMESPACE_DNS (jsonDump doc)

/-- The bulk-action control line
`json.dumps({"index": {"_index": ..., "_type": ..., "_id": ...}}, indent=None, separators=(',', ':'))`. -/
def es_req_line (indexName typeName docId : String) : String :=
  "\x7b\"index\":\x7b\"_index\":" ++ jsonQuote indexName ++ ",\"_type\":" ++ jsonQuote typeName ++
    ",\"_id\":" ++ jsonQuote docId ++ "\x7d\x7d"

/-- `ElasticsearchClient.process_values` (src/bucky3/elasticsearch.py lines
82-112), transliterated.  After `init_cfg`, `index_name` is `None` or a
function (a configured static string is wrapped into a constant function),
so it is modelled as `Option` of a function; `type_name` is the configured
string (`None` or empty both falling back to `bucket` through
`type_name or bucket`).  The result is the list of fragments handed to
`buffer_output` — empty when the sample is dropped. -/
def es_process_values (cfgMeta : List (String × PyVal))
    (indexFn : Option (String → List (String × PyVal) → ℚ → String))
    (typeName : Option String) (recv_timestamp : ℚ) (bucket : String)
    (values : List (String × PyVal)) (timestamp : Option ℚ)
    (metadata : List (String × PyVal)) : List String :=
  let values3 := es_doc cfgMeta metadata values timestamp recv_timestamp
  let ts := es_effective_ts timestamp recv_timestamp
  let p := match indexFn with
           | some f =>
               let v4 := dictSet values3 "bucket" (PyVal.s bucket)
               (v4, f bucket v4 ts)
           | none => (values3, bucket)
  if p.2 = "" then []
  else
    let tn := match typeName with
              | some t => if t = "" then bucket else t
              | none => bucket
    let doc_str := jsonDump p.1
    [es_req_line p.2 tn (es_doc_id p.1) ++ "\n" ++ doc_str ++ "\n"]

/-!
## The bulk transport (`ElasticsearchConnection.bulk_upload`)

`bulk_upload` (src/bucky3/elasticsearch.py lines 34-49) joins the buffered
fragments, UTF-8 encodes and optionally compresses them, issues one
`POST /_bulk`, and raises `ConnectionError` on any status other than 200,
otherwise reading (consuming) the response body.  The model takes the
library compressors (`gzip.compress`, `zlib.compress`) as parameters and
the HTTP exchange as an explicit response value; the socket-level
behaviour itself is outside a shallow embedding. -/

/-- The single HTTP request a `bulk_upload` call issues. -/
structure HttpRequest where
  method : String
  path : String
  body : List Nat
  headers : List (String × String)
  deriving DecidableEq, Repr

/-- A backend HTTP response: status code and body bytes. -/
structure HttpResponse where
  status : Nat
  body : List Nat
  deriving DecidableEq, Repr

/-- `ElasticsearchConnection.bulk_upload`, transliterated: the request built
and sent, and either the consumed response body or the raised
`ConnectionError` message.  `gz`/`df` stand for `gzip.compress` /
`zlib.compress`; any other configured mode leaves the body as is. -/
def bulk_upload (compression : String) (gz df : List Nat → List Nat)
    (docs : List String) (resp : HttpResponse) : HttpRequest × Except String (List Nat) :=
  let body := utf8Encode (String.join docs)
  let compressor := if compression = "gzip" then gz
                    else if compression = "deflate" then df
                    else id
  let req : HttpRequest :=
    { method := "POST", path := "/_bulk", body := compressor body,
      headers := [("Content-Type", "application/x-ndjson"),
                  ("Content-Encoding", compression), ("Accept-Encoding", compression)] }
  (req, if resp.status ≠ 200 then
          .error ("Elasticsearch error code " ++ toString resp.status)
        else .ok resp.body)

/-!
## The buffer / flush state machine

The generic `MetricsPushProcess` loop lives in `bucky/module.py` /
`bucky3/module.py`, which are not among the sources; the flush step is
modelled from the spec.  What *is* in the sources: `CarbonClient.push_buffer`
sends the whole joined buffer without mutating it, and
`ElasticsearchClient.push_chunk` performs the upload and returns `[]` as
the new buffer contents on success. -/

/-- `CarbonClient.push_buffer` (src/bucky/carbon.py lines 25-29): the single
payload written to the TCP socket — the concatenation of the buffered
fragments; the buffer itself is not touched. -/
def carbon_push_payload (buffer : List String) : List Nat :=
  utf8Encode (String.join buffer)

/-- `ElasticsearchClient.push_chunk` (src/bucky3/elasticsearch.py lines
74-76): run the upload; on success the chunk is replaced by `[]`.  The
`upload` parameter abstracts `bulk_upload` on the live connection; `.error`
models the exception propagating. -/
def es_push_chunk (upload : List String → Except String Unit) (chunk : List String) :
    Except String (List String) :=
  (upload chunk).map (fun _ => [])

/-- Modelled from the spec: one flush attempt of the Push Client state
machine (`MetricsPushProcess.flush` in the missing `bucky/module.py` /
`bucky3/module.py`).  §4.2/§3: the whole buffer is pushed; on success the
sent fragments are cleared (replaced by what the push returns as leftover),
on failure the buffer is left exactly intact for the timer-paced retry.
Returns the fragments handed to `push` together with the buffer after the
attempt. -/
def flush_attempt (push : List String → Except String (List String))
    (buffer : List String) : List String × List String :=
  (buffer, match push buffer with
           | .ok leftover => leftover
           | .error _ => buffer)

/-!
## The supervisor (`Bucky.run` / `Bucky.shutdown`, src/bucky/main.py)

One iteration of `Bucky.run`'s loop: pop from the intake queue with a
1-second timeout; on a sample, walk the client list in order — checking
`is_alive()` *before* each send and calling `self.shutdown(...)` (which
raises `BuckyError`) at the first dead client; on `queue.Empty` only the
server (collector) liveness is checked; a falsy sample is the shutdown
sentinel.  The loop is modelled as a function of the trace of queue
events, with static liveness flags. -/

/-- One observed intake-queue event: a timeout (`queue.Empty`), the `None`
sentinel, or a sample (abstracted to a number). -/
inductive QEvent where
  | empty
  | sentinel
  | sample (s : Nat)
  deriving DecidableEq, Repr

/-- How an iteration of the supervisor loop ends. -/
inductive LoopResult where
  | running
  | cleanShutdown
  | fatalShutdown (err : String)
  deriving DecidableEq, Repr

/-- The client fan-out of one received sample: walk the clients in order
starting at index `i`; a live client gets the sample, the first dead one
stops the walk (its `shutdown` call raises).  Returns the sends performed,
as `(client index, sample)` pairs, and whether a dead client was found. -/
def forwardSample : List Bool → Nat → Nat → List (Nat × Nat) × Bool
  | [], _, _ => ([], false)
  | alive :: rest, i, s =>
      if alive then
        let p := forwardSample rest (i + 1) s
        ((i, s) :: p.1, p.2)
      else ([], true)

/-- One iteration of `Bucky.run`'s `while True` loop. -/
def runStep (servers clients : List Bool) (ev : QEvent) : List (Nat × Nat) × LoopResult :=
  match ev with
  | .empty => ([], if servers.all id then .running else .fatalShutdown "Server thread died. Exiting.")
  | .sentinel => ([], .cleanShutdown)
  | .sample s =>
      let p := forwardSample clients 0 s
      if p.2 then (p.1, .fatalShutdown "Client process died. Exiting.")
      else (p.1, if servers.all id then .running else .fatalShutdown "Server thread died. Exiting.")

/-- The supervisor loop over a finite trace of queue events: accumulate the
sends of each iteration and stop at the first shutdown. -/
def runLoop (servers clients : List Bool) : List QEvent → List (Nat × Nat) × LoopResult
  | [] => ([], .running)
  | ev :: rest =>
      let p := runStep servers clients ev
      match p.2 with
      | .running =>
          let q := runLoop servers clients rest
          (p.1 ++ q.1, q.2)
      | r => (p.1, r)

/-- One action of the shutdown sequence, in execution order. -/
inductive SdAction where
  | closeServer (i : Nat)
  | joinServer (i : Nat)
  | sendSentinel (i : Nat)
  | joinClient (i : Nat)
  | terminateChild (name : String)
  | joinChild (name : String)
  deriving DecidableEq, Repr

/-- `Bucky.shutdown` (src/bucky/main.py lines 248-266), transliterated:
close and join every server, send the `None` sentinel to and join every
client (each join bounded by `cfg.process_join_timeout`), then forcibly
terminate every child process still alive afterwards (the multiprocessing
`SyncManager` helpers excepted); raise `BuckyError` — surfacing a non-zero
exit — exactly when survivors had to be terminated or an error message was
passed in.  `survivors` is the `multiprocessing.active_children()` snapshot
taken after the joins; the returned `Option String` is the raised error. -/
def bucky_shutdown (servers clients : Nat) (survivors : List String) (err : String) :
    List SdAction × Option String :=
  let serverActs := (List.range servers).flatMap (fun i => [SdAction.closeServer i, SdAction.joinServer i])
  let clientActs := (List.range clients).flatMap (fun i => [SdAction.sendSentinel i, SdAction.joinClient i])
  let children := survivors.filter (fun n => !(n.startsWith "SyncManager"))
  let termActs := children.flatMap (fun c => [SdAction.terminateChild c, SdAction.joinChild c])
  let err2 := if children ≠ [] ∧ err = "" then
                "Not all children died gracefully: " ++ String.intercalate ", " children
              else err
  (serverActs ++ clientActs ++ termActs, if err2 = "" then none else some err2)

/-!
## Dictionary lemmas
-/

theorem dlookup_append (k : String) (l1 l2 : List (String × α)) :
    dlookup k (l1 ++ l2) = (dlookup k l1).or (dlookup k l2) := by
  induction l1 with
  | nil => simp [dlookup]
  | cons kv rest ih =>
      obtain ⟨k2, v⟩ := kv
      by_cases h : k2 = k <;> simp [dlookup, h, ih]

theorem dlookup_filter (Q : String → Bool) (k : String) (l : List (String × α))
    (h : Q k = true) : dlookup k (l.filter (fun kv => Q kv.1)) = dlookup k l := by
  induction l with
  | nil => rfl
  | cons kv rest ih =>
      obtain ⟨k2, v⟩ := kv
      by_cases hk : k2 = k
      · subst hk; simp [List.filter_cons, h, dlookup]
      · cases hQ : Q k2 <;> simp [List.filter_cons, hQ, dlookup, hk, ih]

theorem dkeys_nil : dkeys ([] : List (String × α)) = [] :=
  rfl

theorem dkeys_cons (kv : String × α) (rest : List (String × α)) :
    dkeys (kv :: rest) = kv.1 :: dkeys rest :=
  rfl

theorem dlookup_dictSet (m : List (String × α)) (key k : String) (v : α) :
    dlookup k (dictSet m key v) = if key = k then some v else dlookup k m := by
  induction m with
  | nil => simp [dictSet, dlookup]
  | cons kv rest ih =>
      obtain ⟨k2, v2⟩ := kv
      by_cases h : k2 = key
      · subst h
        by_cases hk : k2 = k <;> simp [dictSet, dlookup, hk]
      · by_cases hk : k2 = k
        · subst hk
          have h2 : ¬ key = k2 := fun hh => h hh.symm
          simp [dictSet, h, dlookup, h2]
        · simp [dictSet, h, dlookup, hk, ih]

theorem mem_dkeys (k : String) (m : List (String × α)) :
    k ∈ dkeys m ↔ (dlookup k m).isSome := by
  induction m with
  | nil => simp [dkeys_nil, dlookup]
  | cons kv rest ih =>
      obtain ⟨k2, v⟩ := kv
      by_cases h : k2 = k
      · simp [dkeys_cons, dlookup, h]
      · have h2 : ¬ k = k2 := fun hh => h hh.symm
        simp [dkeys_cons, List.mem_cons, dlookup, h, h2, ih]

theorem dkeys_dictSet (m : List (String × α)) (key : String) (v : α) :
    dkeys (dictSet m key v) = if key ∈ dkeys m then dkeys m else dkeys m ++ [key] := by
  induction m with
  | nil => simp [dictSet, dkeys_nil, dkeys_cons]
  | cons kv rest ih =>
      obtain ⟨k2, v2⟩ := kv
      by_cases h : k2 = key
      · subst h; simp [dictSet, dkeys_cons, List.mem_cons]
      · have h2 : ¬ key = k2 := fun hh => h hh.symm
        by_cases hm : key ∈ dkeys rest <;>
          simp [dictSet, h, dkeys_cons, List.mem_cons, h2, hm, ih]

theorem nodup_dkeys_dictSet (m : List (String × α)) (key : String) (v : α)
    (h : (dkeys m).Nodup) : (dkeys (dictSet m key v)).Nodup := by
  rw [dkeys_dictSet]
  by_cases hm : key ∈ dkeys m
  · simpa [hm]
  · simpa [hm, List.nodup_append] using h

/-!
## Code-point order lemmas and sort determinism
-/

theorem char_toNat_inj {c d : Char} (h : c.toNat = d.toNat) : c = d :=
  Char.eq_of_val_eq (UInt32.toNat.inj h)

theorem lexLe_total (a b : List Char) : lexLe a b = true ∨ lexLe b a = true := by
  induction a generalizing b with
  | nil => left; rfl
  | cons c cs ih =>
      cases b with
      | nil => right; rfl
      | cons d ds =>
          rcases Nat.lt_trichotomy c.toNat d.toNat with h | h | h
          · left; simp [lexLe, h]
          · have h2 : ¬ c.toNat < d.toNat := by omega
            have h3 : ¬ d.toNat < c.toNat := by omega
            rcases ih ds with h4 | h4
            · left; simp [lexLe, h2, h3, h4]
            · right; simp [lexLe, h2, h3, h4]
          · right; simp [lexLe, h]

theorem lexLe_trans {a b c : List Char} (h1 : lexLe a b = true) (h2 : lexLe b c = true) :
    lexLe a c = true := by
  induction a generalizing b c with
  | nil => rfl
  | cons x xs ih =>
      cases b with
      | nil => simp [lexLe] at h1
      | cons y ys =>
          cases c with
          | nil => simp [lexLe] at h2
          | cons z zs =>
              simp only [lexLe] at h1 h2 ⊢
              split_ifs at h1 h2 ⊢ <;>
                first
                  | rfl
                  | omega
                  | exact ih h1 h2

theorem lexLe_antisymm {a b : List Char} (h1 : lexLe a b = true) (h2 : lexLe b a = true) :
    a = b := by
  induction a generalizing b with
  | nil =>
      cases b with
      | nil => rfl
      | cons d ds => simp [lexLe] at h2
  | cons x xs ih =>
      cases b with
      | nil => simp [lexLe] at h1
      | cons y ys =>
          simp only [lexLe] at h1 h2
          split_ifs at h1 h2
          all_goals
            first
              | omega
              | (have hx : x = y := char_toNat_inj (by omega)
                 subst hx
                 simp [ih h1 h2])

instance : IsTotal String (fun a b => strLe a b = true) :=
  ⟨fun a b => lexLe_total a.data b.data⟩

instance : IsTrans String (fun a b => strLe a b = true) :=
  ⟨fun _ _ _ => lexLe_trans⟩

instance : IsAntisymm String (fun a b => strLe a b = true) :=
  ⟨fun a b h1 h2 => by
    cases a with
    | mk da =>
        cases b with
        | mk db => exact congrArg String.mk (lexLe_antisymm h1 h2)⟩

/-- Two duplicate-free key lists with the same membership sort identically:
`sorted(keys)` depends only on the key set. -/
theorem sortKeys_eq_of_mem_iff {l1 l2 : List String} (h1 : l1.Nodup) (h2 : l2.Nodup)
    (h : ∀ a, a ∈ l1 ↔ a ∈ l2) : sortKeys l1 = sortKeys l2 := by
  have hp : List.Perm l1 l2 := (List.perm_ext_iff_of_nodup h1 h2).mpr h
  unfold sortKeys
  exact List.eq_of_perm_of_sorted
    ((List.perm_insertionSort _ l1).trans (hp.trans (List.perm_insertionSort _ l2).symm))
    (List.sorted_insertionSort _ l1) (List.sorted_insertionSort _ l2)

/-!
## `pop` and `build_name` lemmas
-/

theorem popKey_none_iff (m : List (String × α)) (k : String) :
    popKey m k = none ↔ dlookup k m = none := by
  induction m with
  | nil => simp [popKey, dlookup]
  | cons kv rest ih =>
      obtain ⟨k2, v2⟩ := kv
      by_cases h : k2 = k <;> simp [popKey, dlookup, h, ih]

theorem popKey_fst {m : List (String × α)} {k : String} {v : α} {m2 : List (String × α)}
    (h : popKey m k = some (v, m2)) : dlookup k m = some v := by
  induction m generalizing m2 with
  | nil => simp [popKey] at h
  | cons kv rest ih =>
      obtain ⟨k2, v2⟩ := kv
      by_cases h2 : k2 = k
      · simp [popKey, h2] at h
        simp [dlookup, h2, h.1]
      · cases hp : popKey rest k with
        | none => simp [popKey, h2, hp] at h
        | some p =>
            obtain ⟨v3, r2⟩ := p
            simp [popKey, h2, hp] at h
            simp [dlookup, h2, ih (h.1 ▸ hp)]

theorem popKey_sublist {m : List (String × α)} {k : String} {v : α} {m2 : List (String × α)}
    (h : popKey m k = some (v, m2)) : m2.Sublist m := by
  induction m generalizing m2 with
  | nil => simp [popKey] at h
  | cons kv rest ih =>
      obtain ⟨k2, v2⟩ := kv
      by_cases h2 : k2 = k
      · simp [popKey, h2] at h
        exact h.2 ▸ List.sublist_cons_self _ _
      · cases hp : popKey rest k with
        | none => simp [popKey, h2, hp] at h
        | some p =>
            obtain ⟨v3, r2⟩ := p
            simp [popKey, h2, hp] at h
            exact h.2 ▸ (ih (h.1 ▸ hp)).cons₂ _

theorem popKey_lookup_other {m : List (String × α)} {k : String} {v : α}
    {m2 : List (String × α)} (h : popKey m k = some (v, m2)) (k2 : String)
    (hne : ¬ k2 = k) : dlookup k2 m2 = dlookup k2 m := by
  induction m generalizing m2 with
  | nil => simp [popKey] at h
  | cons kv rest ih =>
      obtain ⟨k3, v3⟩ := kv
      by_cases h2 : k3 = k
      · simp [popKey, h2] at h
        have h3 : ¬ k3 = k2 := fun hh => hne (hh.symm.trans h2)
        simp [← h.2, dlookup, h3]
      · cases hp : popKey rest k with
        | none => simp [popKey, h2, hp] at h
        | some p =>
            obtain ⟨v4, r2⟩ := p
            simp [popKey, h2, hp] at h
            by_cases h3 : k3 = k2 <;>
              simp [← h.2, dlookup, h3, ih (h.1 ▸ hp)]

theorem popKey_lookup_self {m : List (String × α)} {k : String} {v : α}
    {m2 : List (String × α)} (h : popKey m k = some (v, m2))
    (hn : (dkeys m).Nodup) : dlookup k m2 = none := by
  induction m generalizing m2 with
  | nil => simp [popKey] at h
  | cons kv rest ih =>
      obtain ⟨k3, v3⟩ := kv
      rw [dkeys_cons] at hn
      by_cases h2 : k3 = k
      · simp [popKey, h2] at h
        have h3 : k ∉ dkeys rest := h2 ▸ (List.nodup_cons.mp hn).1
        rw [← h.2]
        exact Option.not_isSome_iff_eq_none.mp (fun hs => h3 ((mem_dkeys k rest).mpr hs))
      · cases hp : popKey rest k with
        | none => simp [popKey, h2, hp] at h
        | some p =>
            obtain ⟨v4, r2⟩ := p
            simp [popKey, h2, hp] at h
            simp [← h.2, dlookup, h2, ih (h.1 ▸ hp) (List.nodup_cons.mp hn).2]

theorem popKey_nodup {m : List (String × α)} {k : String} {v : α} {m2 : List (String × α)}
    (h : popKey m k = some (v, m2)) (hn : (dkeys m).Nodup) : (dkeys m2).Nodup :=
  hn.sublist ((popKey_sublist h).map Prod.fst)

/-- Full characterization of the sequential pops of `build_name`: with
duplicate-free dictionary keys, duplicate-free popped keys all present, the
pops succeed, collect exactly the looked-up values in order, and leave a
dictionary that answers `none` for popped keys and as before otherwise. -/
theorem popAll_spec (found : List String) (m : List (String × α))
    (hm : (dkeys m).Nodup) (hf : found.Nodup)
    (hpres : ∀ k ∈ found, (dlookup k m).isSome) :
    ∃ m2, popAll found m = some (found.filterMap (fun k => dlookup k m), m2) ∧
      (∀ k, dlookup k m2 = if k ∈ found then none else dlookup k m) ∧
      (dkeys m2).Nodup := by
  induction found generalizing m with
  | nil => exact ⟨m, rfl, by simp, hm⟩
  | cons k ks ih =>
      obtain ⟨v, hv⟩ := Option.isSome_iff_exists.mp (hpres k (List.mem_cons_self k ks))
      cases hp : popKey m k with
      | none => exact absurd ((popKey_none_iff m k).mp hp) (by simp [hv])
      | some p =>
          obtain ⟨v1, m1⟩ := p
          have hv1 : v1 = v := by
            have := popKey_fst hp
            rw [hv] at this
            exact (Option.some_inj.mp this).symm
          have hknotks : k ∉ ks := (List.nodup_cons.mp hf).1
          have hm1 : (dkeys m1).Nodup := popKey_nodup hp hm
          have hother : ∀ k2, ¬ k2 = k → dlookup k2 m1 = dlookup k2 m :=
            fun k2 h2 => popKey_lookup_other hp k2 h2
          have hpres1 : ∀ k2 ∈ ks, (dlookup k2 m1).isSome := by
            intro k2 hk2
            rw [hother k2 (fun hh => hknotks (hh ▸ hk2))]
            exact hpres k2 (List.mem_cons_of_mem _ hk2)
          obtain ⟨m2, hrec, hlook, hnod⟩ := ih m1 hm1 (List.nodup_cons.mp hf).2 hpres1
          refine ⟨m2, ?_, ?_, hnod⟩
          · have hvals : ks.filterMap (fun k2 => dlookup k2 m1) =
                ks.filterMap (fun k2 => dlookup k2 m) :=
              List.filterMap_congr (fun k2 hk2 => hother k2 (fun hh => hknotks (hh ▸ hk2)))
            simp [popAll, hp, hrec, hvals, hv, hv1]
          · intro k2
            rw [hlook k2]
            by_cases h2 : k2 = k
            · subst h2
              simp [hknotks, popKey_lookup_self hp hm]
            · by_cases h3 : k2 ∈ ks <;> simp [h2, h3, hother k2 h2]

/-- With duplicate-free dictionary keys and no duplicated present key in the
configured list, `build_name` succeeds and returns exactly the §4.4 name. -/
theorem build_name_eq (o : List String) (m : List (String × String))
    (hm : (dkeys m).Nodup)
    (hf : (o.filter (fun k => (dlookup k m).isSome)).Nodup) :
    build_name o m = some (build_name_spec o m) := by
  have hpres : ∀ k ∈ o.filter (fun k => (dlookup k m).isSome), (dlookup k m).isSome := by
    intro k hk
    exact (List.mem_filter.mp hk).2
  obtain ⟨m2, hpop, hlook, hnod⟩ := popAll_spec _ m hm hf hpres
  simp only [build_name, build_name_spec, hpop]
  have hsort : sortKeys (dkeys m2) =
      sortKeys ((dkeys m).filter
        (fun k => ¬ (o.filter (fun k2 => (dlookup k2 m).isSome)).contains k)) := by
    apply sortKeys_eq_of_mem_iff hnod (hm.filter _)
    intro a
    rw [mem_dkeys, hlook a]
    by_cases ha : a ∈ o.filter (fun k2 => (dlookup k2 m).isSome)
    · simp [ha, List.mem_filter]
      intro _
      exact ⟨(List.mem_filter.mp ha).1,
        Option.ne_none_iff_isSome.mpr (List.mem_filter.mp ha).2⟩
    · simp [ha, List.mem_filter, mem_dkeys]
      intro hs
      exact Or.inl (fun ho => ha (List.mem_filter.mpr ⟨ho, by simpa using hs⟩))
  have hvals : ∀ l : List String,
      (∀ k ∈ l, k ∉ o.filter (fun k2 => (dlookup k2 m).isSome)) →
      l.filterMap (fun k => dlookup k m2) = l.filterMap (fun k => dlookup k m) := by
    intro l hl
    apply List.filterMap_congr
    intro k hk
    rw [hlook k, if_neg (hl k hk)]
  rw [hsort, hvals]
  intro k hk
  unfold sortKeys at hk
  rw [List.mem_insertionSort] at hk
  have := (List.mem_filter.mp hk).2
  simp only [List.contains, List.elem_eq_mem, decide_eq_true_eq] at this
  simpa using this

/-- Looked-up values over a common key list agree for mappings that agree. -/
theorem filterMap_dlookup_congr {m1 m2 : List (String × String)}
    (h : ∀ k, dlookup k m1 = dlookup k m2) (l : List String) :
    l.filterMap (fun k => dlookup k m1) = l.filterMap (fun k => dlookup k m2) :=
  List.filterMap_congr (fun k _ => h k)

/-- The §4.4 name depends only on the key-value content of the metadata
mapping, not on its insertion order. -/
theorem build_name_spec_congr (o : List String) {m1 m2 : List (String × String)}
    (h1 : (dkeys m1).Nodup) (h2 : (dkeys m2).Nodup)
    (h : ∀ k, dlookup k m1 = dlookup k m2) :
    build_name_spec o m1 = build_name_spec o m2 := by
  simp only [build_name_spec]
  have hfound : o.filter (fun k => (dlookup k m1).isSome) =
      o.filter (fun k => (dlookup k m2).isSome) :=
    List.filter_congr (fun k _ => by rw [h k])
  rw [hfound]
  have hsort : sortKeys ((dkeys m1).filter
      (fun k => ¬ (o.filter (fun k2 => (dlookup k2 m2).isSome)).contains k)) =
      sortKeys ((dkeys m2).filter
        (fun k => ¬ (o.filter (fun k2 => (dlookup k2 m2).isSome)).contains k)) := by
    apply sortKeys_eq_of_mem_iff (h1.filter _) (h2.filter _)
    intro a
    simp [List.mem_filter, mem_dkeys, h a]
  rw [hsort]
  simp only [filterMap_dlookup_congr h]

/-- **C1** (amended): provided no key of the configured `name_mapping` list
that is present in the metadata occurs in it twice, `build_name(m)` returns
the string formed by the values of the configured keys present in `m` in
configured order, followed by the values of all remaining keys sorted
lexicographically by key, joined with `.`; and the result depends only on
the mapping's key-value content (two dictionaries — duplicate-free key
sets, as Python guarantees — agreeing as mappings give identical names),
so repeated calls with equal inputs produce an identical dotted string. -/
theorem build_name_follows_spec_and_deterministic (o : List String)
    (m1 m2 : List (String × String))
    (hm1 : (dkeys m1).Nodup) (hm2 : (dkeys m2).Nodup)
    (hf : (o.filter (fun k => (dlookup k m1).isSome)).Nodup)
    (hagree : ∀ k ∈ dkeys m1 ++ dkeys m2, dlookup k m1 = dlookup k m2) :
    build_name o m1 = some (build_name_spec o m1) ∧
      build_name o m1 = build_name o m2 := by
  have hall : ∀ k, dlookup k m1 = dlookup k m2 := by
    intro k
    by_cases hk1 : k ∈ dkeys m1
    · exact hagree k (List.mem_append_left _ hk1)
    · by_cases hk2 : k ∈ dkeys m2
      · exact hagree k (List.mem_append_right _ hk2)
      · rw [Option.not_isSome_iff_eq_none.mp (fun hs => hk1 ((mem_dkeys k m1).mpr hs)),
          Option.not_isSome_iff_eq_none.mp (fun hs => hk2 ((mem_dkeys k m2).mpr hs))]
  have hfound : o.filter (fun k => (dlookup k m1).isSome) =
      o.filter (fun k => (dlookup k m2).isSome) :=
    List.filter_congr (fun k _ => by rw [hall k])
  have hf2 : (o.filter (fun k => (dlookup k m2).isSome)).Nodup := hfound ▸ hf
  refine ⟨build_name_eq o m1 hm1 hf, ?_⟩
  rw [build_name_eq o m1 hm1 hf, build_name_eq o m2 hm2 hf2,
    build_name_spec_congr o hm1 hm2 hall]

/-- Witness for the amended C1 at a concrete input: the same two-entry
mapping in two insertion orders, `name_mapping = ["b"]`. -/
theorem build_name_follows_spec_and_deterministic_witness :
    ((dkeys [("b", "2"), ("a", "1")]).Nodup ∧
      (dkeys [("a", "1"), ("b", "2")]).Nodup ∧
      (["b"].filter (fun k => (dlookup k [("b", "2"), ("a", "1")]).isSome)).Nodup ∧
      (∀ k ∈ dkeys [("b", "2"), ("a", "1")] ++ dkeys [("a", "1"), ("b", "2")],
        dlookup k [("b", "2"), ("a", "1")] = dlookup k [("a", "1"), ("b", "2")])) ∧
    (build_name ["b"] [("b", "2"), ("a", "1")] =
        some (build_name_spec ["b"] [("b", "2"), ("a", "1")]) ∧
      build_name ["b"] [("b", "2"), ("a", "1")] = build_name ["b"] [("a", "1"), ("b", "2")]) :=
  ⟨⟨by decide, by decide, by decide, by decide⟩,
    build_name_follows_spec_and_deterministic ["b"] [("b", "2"), ("a", "1")]
      [("a", "1"), ("b", "2")] (by decide) (by decide) (by decide) (by decide)⟩

/-- **C1** counterexample: the claim as stated quantifies over *every*
configured `name_mapping` list, but with `name_mapping = ["a", "a"]` and
metadata `{"a": "x"}` the comprehension `[metadata.pop(k) for k in
found_mappings]` pops `"a"` twice and the second pop raises `KeyError` —
`build_name` returns no string at all instead of the promised dotted
string. -/
theorem build_name_duplicate_mapping_counterexample :
    build_name ["a", "a"] [("a", "x")] = none := by
  decide

/-!
## Plaintext line round-trip lemmas
-/

theorem string_data_append (a b : String) : (a ++ b).data = a.data ++ b.data :=
  rfl

theorem charDigit_digitChar {d : Nat} (h : d < 10) : charDigit (digitChar d) = some d := by
  interval_cases d <;> decide

theorem digitChar_ne {d : Nat} (h : d < 10) (c : Char) (hc : charDigit c = none) :
    digitChar d ≠ c := by
  intro he
  rw [← he, charDigit_digitChar h] at hc
  exact Option.noConfusion hc

theorem mem_digits_map {c : Char} {ds : List Nat} (h : ∀ d ∈ ds, d < 10)
    (hc : charDigit c = none) : c ∉ ds.map digitChar := by
  intro hm
  obtain ⟨d, hd, he⟩ := List.mem_map.mp hm
  exact digitChar_ne (h d hd) c hc he

/-- The characters `pystr` emits: optional sign, integer digits, optional
point and fraction digits. -/
theorem pystr_chars (v : PyNum) : (pystr v).data =
    (if v.neg then ['-'] else []) ++ v.ip.map digitChar ++
      (match v.frac with
       | none => []
       | some ds => '.' :: ds.map digitChar) := by
  obtain ⟨neg, ip, frac⟩ := v
  cases neg <;> cases frac <;> simp [pystr, digitsStr, string_data_append]

theorem pystr_no_space {v : PyNum} (h : v.WF) : ' ' ∉ (pystr v).data := by
  obtain ⟨hip, _, _, hrest⟩ := h
  rw [pystr_chars]
  intro hm
  rcases List.mem_append.mp hm with hm1 | hm2
  · rcases List.mem_append.mp hm1 with hm3 | hm4
    · cases hn : v.neg <;> rw [hn] at hm3 <;> simp at hm3
    · exact mem_digits_map hip (by decide) hm4
  · cases hf : v.frac with
    | none => rw [hf] at hm2; simp at hm2
    | some ds =>
        rw [hf] at hm2
        rcases List.mem_cons.mp hm2 with hm3 | hm4
        · exact absurd hm3 (by decide)
        · rw [hf] at hrest
          exact mem_digits_map hrest.2 (by decide) hm4

theorem parseDigits_map_append {ds : List Nat} (h : ∀ d ∈ ds, d < 10) (rest : List Char)
    (hrest : ∀ c r, rest = c :: r → charDigit c = none) :
    parseDigits (ds.map digitChar ++ rest) = (ds, rest) := by
  induction ds with
  | nil =>
      simp only [List.map_nil, List.nil_append]
      cases rest with
      | nil => rfl
      | cons c r => simp [parseDigits, hrest c r rfl]
  | cons d ds ih =>
      have hd : d < 10 := h d (List.mem_cons_self d ds)
      simp [parseDigits, charDigit_digitChar hd,
        ih (fun d2 h2 => h d2 (List.mem_cons_of_mem _ h2))]

theorem parseDigits_int {ip : List Nat} (h : ∀ d ∈ ip, d < 10) :
    parseDigits (ip.map digitChar) = (ip, []) := by
  have h2 := parseDigits_map_append h [] (fun c r hcr => by simp at hcr)
  simpa using h2

theorem parseDigits_float {ip ds : List Nat} (h : ∀ d ∈ ip, d < 10) :
    parseDigits (ip.map digitChar ++ '.' :: ds.map digitChar) = (ip, '.' :: ds.map digitChar) :=
  parseDigits_map_append h _ (fun c r hcr => by
    injection hcr with h1 h2
    rw [← h1]
    decide)

/-- Rendering a canonical numeral and parsing it back is the identity —
in particular the parsed value is numerically the rendered one. -/
theorem parseNum_pystr {v : PyNum} (h : v.WF) : parseNum (pystr v) = some v := by
  obtain ⟨neg, ip, frac⟩ := v
  obtain ⟨hip, hne, hlead, hrest⟩ := h
  cases hip0 : ip with
  | nil => exact absurd hip0 hne
  | cons d0 ip2 =>
      have hd0 : d0 < 10 := hip d0 (by rw [hip0]; exact List.mem_cons_self d0 ip2)
      have hm : ¬ digitChar d0 = '-' := digitChar_ne hd0 '-' (by decide)
      have hipd : ∀ d ∈ d0 :: ip2, d < 10 := hip0 ▸ hip
      cases frac with
      | none =>
          have hpd : parseDigits (digitChar d0 :: ip2.map digitChar) = (d0 :: ip2, []) := by
            simpa using parseDigits_int hipd
          cases neg <;> simp [parseNum, pystr_chars, hip0, hm, hpd]
      | some ds =>
          have hds : ∀ d ∈ ds, d < 10 := hrest.2
          have hdsne : ds ≠ [] := hrest.1
          have hpd : parseDigits (digitChar d0 ::
              (ip2.map digitChar ++ '.' :: ds.map digitChar)) =
              (d0 :: ip2, '.' :: ds.map digitChar) := by
            simpa using parseDigits_float hipd
          have hpd2 : parseDigits (ds.map digitChar) = (ds, []) := parseDigits_int hds
          cases neg <;> simp [parseNum, pystr_chars, hip0, hm, hpd, hpd2, hdsne]

theorem breakAtSpace_append {l1 : List Char} (h : ' ' ∉ l1) (l2 : List Char) :
    breakAtSpace (l1 ++ ' ' :: l2) = some (l1, l2) := by
  induction l1 with
  | nil => simp [breakAtSpace]
  | cons c r ih =>
      have hc : ¬ c = ' ' := fun hh => h (hh ▸ List.mem_cons_self c r)
      simp [breakAtSpace, hc, ih (fun hm => h (List.mem_cons_of_mem _ hm))]

/-- Any produced plaintext line parses back to its three fields by
splitting at the trailing newline and the last two spaces. -/
theorem parse_line_roundtrip (name : String) {v t : PyNum} (hv : v.WF) (ht : t.WF) :
    parse_line (name ++ " " ++ pystr v ++ " " ++ pystr t ++ "\n") = some (name, v, t) := by
  have hrev : (name ++ " " ++ pystr v ++ " " ++ pystr t ++ "\n").data.reverse =
      '\n' :: ((pystr t).data.reverse ++ ' ' :: ((pystr v).data.reverse ++ ' ' :: name.data.reverse)) := by
    simp [string_data_append]
  have hs1 : ' ' ∉ (pystr t).data.reverse := by
    rw [List.mem_reverse]
    exact pystr_no_space ht
  have hs2 : ' ' ∉ (pystr v).data.reverse := by
    rw [List.mem_reverse]
    exact pystr_no_space hv
  simp only [parse_line, hrev]
  rw [if_pos trivial]
  simp only [breakAtSpace_append hs1, breakAtSpace_append hs2]
  simp [List.reverse_reverse, parseNum_pystr hv, parseNum_pystr ht]

/-- Truncating preserves canonical numerals (and yields an `int`). -/
theorem pyint_WF {v : PyNum} (h : v.WF) : (pyint v).WF := by
  obtain ⟨neg, ip, frac⟩ := v
  obtain ⟨hip, hne, hlead, hrest⟩ := h
  cases frac with
  | none => exact ⟨hip, hne, hlead, hrest⟩
  | some ds =>
      refine ⟨hip, hne, hlead, ?_⟩
      intro hn h0
      simp only [pyint] at hn h0
      rw [h0] at hn
      simp at hn

theorem mapM_option_eq_map {α β : Type} {f : α → Option β} {g : α → β} {l : List α}
    (h : ∀ a ∈ l, f a = some (g a)) : l.mapM f = some (l.map g) := by
  induction l with
  | nil => rfl
  | cons a l ih =>
      rw [List.mapM_cons, h a (List.mem_cons_self a l),
        ih (fun a2 h2 => h a2 (List.mem_cons_of_mem _ h2))]
      rfl

/-- With a duplicate-free `name_mapping` and metadata dictionary, the carbon
encoder appends exactly one line per field, in field order, of the stated
shape. -/
theorem carbon_lines (o : List String) (bucket : String) (values : List (String × PyNum))
    (timestamp : PyNum) (metadata : List (String × String))
    (ho : o.Nodup) (hmd : (dkeys metadata).Nodup) :
    carbon_process_values o bucket values timestamp metadata =
      some (values.map (fun kv =>
        build_name_spec o (dictSet (dictSet metadata "bucket" bucket) "value" kv.1) ++ " " ++
          pystr kv.2 ++ " " ++ pystr (pyint timestamp) ++ "\n")) := by
  apply mapM_option_eq_map
  intro kv _
  have hm2 : (dkeys (dictSet (dictSet metadata "bucket" bucket) "value" kv.1)).Nodup :=
    nodup_dkeys_dictSet _ _ _ (nodup_dkeys_dictSet _ _ _ hmd)
  rw [build_name_eq o _ hm2 (ho.filter _)]
  rfl

/-- **C2**: for every Sample (with the dictionary-key and canonical-numeral
well-formedness Python guarantees, and a duplicate-free `name_mapping`),
the plaintext encoder appends exactly `len(values)` lines, one per field in
field-iteration order, each `"<name> <value> <integer-timestamp>\n"` with
the name built by `build_name` over the per-field metadata copy augmented
with `bucket` and the field key; each line parses back to
`(name, value, timestamp)` with the value equal to the original; and the
scenario Sample yields exactly `"a1.cpu.idle 97.5 1700000000\n"`. -/
theorem carbon_process_values_correct :
    (∀ (o : List String) (bucket : String) (values : List (String × PyNum))
        (timestamp : PyNum) (metadata : List (String × String)),
      o.Nodup → (dkeys metadata).Nodup → timestamp.WF →
      (carbon_process_values o bucket values timestamp metadata =
        some (values.map (fun kv =>
          build_name_spec o (dictSet (dictSet metadata "bucket" bucket) "value" kv.1) ++ " " ++
            pystr kv.2 ++ " " ++ pystr (pyint timestamp) ++ "\n")) ∧
        (∀ kv ∈ values, kv.2.WF →
          parse_line (build_name_spec o (dictSet (dictSet metadata "bucket" bucket) "value" kv.1) ++
              " " ++ pystr kv.2 ++ " " ++ pystr (pyint timestamp) ++ "\n") =
            some (build_name_spec o (dictSet (dictSet metadata "bucket" bucket) "value" kv.1),
              kv.2, pyint timestamp)))) ∧
    carbon_process_values ["host"] "cpu" [("idle", ⟨false, [9, 7], some [5]⟩)]
      ⟨false, [1, 7, 0, 0, 0, 0, 0, 0, 0, 0], none⟩ [("host", "a1")] =
      some ["a1.cpu.idle 97.5 1700000000\n"] := by
  constructor
  · intro o bucket values timestamp metadata ho hmd hts
    refine ⟨carbon_lines o bucket values timestamp metadata ho hmd, ?_⟩
    intro kv _ hkv
    exact parse_line_roundtrip _ hkv (pyint_WF hts)
  · decide

/-- Witness for C2 at the scenario Sample. -/
theorem carbon_process_values_correct_witness :
    ((["host"] : List String).Nodup ∧ (dkeys [("host", "a1")]).Nodup ∧
      (⟨false, [1, 7, 0, 0, 0, 0, 0, 0, 0, 0], none⟩ : PyNum).WF ∧
      (⟨false, [9, 7], some [5]⟩ : PyNum).WF) ∧
    carbon_process_values ["host"] "cpu" [("idle", ⟨false, [9, 7], some [5]⟩)]
      ⟨false, [1, 7, 0, 0, 0, 0, 0, 0, 0, 0], none⟩ [("host", "a1")] =
      some ["a1.cpu.idle 97.5 1700000000\n"] ∧
    parse_line "a1.cpu.idle 97.5 1700000000\n" =
      some ("a1.cpu.idle", ⟨false, [9, 7], some [5]⟩,
        ⟨false, [1, 7, 0, 0, 0, 0, 0, 0, 0, 0], none⟩) := by
  refine ⟨⟨by decide, by decide, by decide, by decide⟩, ?_, ?_⟩
  · exact carbon_process_values_correct.2
  · have h := ((carbon_process_values_correct.1 ["host"] "cpu"
      [("idle", ⟨false, [9, 7], some [5]⟩)] ⟨false, [1, 7, 0, 0, 0, 0, 0, 0, 0, 0], none⟩
      [("host", "a1")] (by decide) (by decide) (by decide)).2
      ("idle", ⟨false, [9, 7], some [5]⟩) (by decide) (by decide))
    have e : build_name_spec ["host"]
        (dictSet (dictSet [("host", "a1")] "bucket" "cpu") "value" "idle") = "a1.cpu.idle" := by
      decide
    rw [e] at h
    have e2 : pyint (⟨false, [1, 7, 0, 0, 0, 0, 0, 0, 0, 0], none⟩ : PyNum) =
        ⟨false, [1, 7, 0, 0, 0, 0, 0, 0, 0, 0], none⟩ := by decide
    rw [e2] at h
    have e3 : pystr (⟨false, [9, 7], some [5]⟩ : PyNum) = "97.5" := by decide
    have e4 : pystr (⟨false, [1, 7, 0, 0, 0, 0, 0, 0, 0, 0], none⟩ : PyNum) =
        "1700000000" := by decide
    rw [e3, e4] at h
    exact h

/-!
## Document-id determinism (bulk encoder)
-/

/-- Two dictionaries agreeing on every key of either agree on all keys. -/
theorem dlookup_ext {m1 m2 : List (String × α)}
    (hagree : ∀ k ∈ dkeys m1 ++ dkeys m2, dlookup k m1 = dlookup k m2) :
    ∀ k, dlookup k m1 = dlookup k m2 := by
  intro k
  by_cases hk1 : k ∈ dkeys m1
  · exact hagree k (List.mem_append_left _ hk1)
  · by_cases hk2 : k ∈ dkeys m2
    · exact hagree k (List.mem_append_right _ hk2)
    · rw [Option.not_isSome_iff_eq_none.mp (fun hs => hk1 ((mem_dkeys k m1).mpr hs)),
        Option.not_isSome_iff_eq_none.mp (fun hs => hk2 ((mem_dkeys k m2).mpr hs))]

/-- Under unique keys, lookup succeeds exactly on the entries of the list. -/
theorem dlookup_eq_some_iff_mem {m : List (String × α)} (hm : (dkeys m).Nodup)
    (k : String) (v : α) : dlookup k m = some v ↔ (k, v) ∈ m := by
  induction m with
  | nil => simp [dlookup]
  | cons kv rest ih =>
      obtain ⟨k2, v2⟩ := kv
      rw [dkeys_cons] at hm
      by_cases h : k2 = k
      · subst h
        have hk : k2 ∉ dkeys rest := (List.nodup_cons.mp hm).1
        have hnotin : (k2, v) ∉ rest := fun hmem => hk (List.mem_map_of_mem Prod.fst hmem)
        simp only [dlookup, if_pos rfl, List.mem_cons]
        constructor
        · intro hv
          have h2 := Option.some_inj.mp hv
          subst h2
          exact Or.inl rfl
        · rintro (hv | hv)
          · have h2 := congrArg Prod.snd hv
            simp only at h2
            simp [h2]
          · exact absurd hv hnotin
      · simp only [dlookup, if_neg h, List.mem_cons]
        rw [ih (List.nodup_cons.mp hm).2]
        constructor
        · exact fun hv => Or.inr hv
        · intro hv
          rcases hv with hv | hv
          · exact absurd (congrArg Prod.fst hv).symm h
          · exact hv

/-- `json.dumps(..., sort_keys=True)` depends only on the key-value content
of the document, not on its insertion order. -/
theorem jsonDump_congr {m1 m2 : List (String × PyVal)}
    (h1 : (dkeys m1).Nodup) (h2 : (dkeys m2).Nodup)
    (h : ∀ k, dlookup k m1 = dlookup k m2) : jsonDump m1 = jsonDump m2 := by
  unfold jsonDump
  have hsort : sortKeys (dkeys m1) = sortKeys (dkeys m2) :=
    sortKeys_eq_of_mem_iff h1 h2 (fun a => by rw [mem_dkeys, mem_dkeys, h a])
  rw [hsort]
  have hvals : (sortKeys (dkeys m2)).filterMap
      (fun k => (dlookup k m1).map (fun v => jsonQuote k ++ ":" ++ jsonValStr v)) =
      (sortKeys (dkeys m2)).filterMap
        (fun k => (dlookup k m2).map (fun v => jsonQuote k ++ ":" ++ jsonValStr v)) :=
    List.filterMap_congr (fun k _ => by rw [h k])
  rw [hvals]

/-- Reordering a dictionary's entries (unique keys) does not change lookups. -/
theorem dlookup_perm {m1 m2 : List (String × α)} (hp : List.Perm m1 m2)
    (h1 : (dkeys m1).Nodup) : ∀ k, dlookup k m1 = dlookup k m2 := by
  have h2 : (dkeys m2).Nodup := ((hp.map Prod.fst).nodup_iff).mp h1
  intro k
  cases hl : dlookup k m1 with
  | some v =>
      exact ((dlookup_eq_some_iff_mem h2 k v).mpr
        (hp.mem_iff.mp ((dlookup_eq_some_iff_mem h1 k v).mp hl))).symm
  | none =>
      cases hl2 : dlookup k m2 with
      | none => rfl
      | some v =>
          have hmem := (dlookup_eq_some_iff_mem h1 k v).mpr
            (hp.mem_iff.mpr ((dlookup_eq_some_iff_mem h2 k v).mp hl2))
          rw [hmem] at hl
          exact Option.noConfusion hl

/-- **C3**: the bulk encoder's document id is the name-based UUID (uuid5
with the DNS namespace) of the minified, key-sorted JSON serialization of
the document, and is therefore a deterministic pure function of the
document's key-value content: documents with equal content — in particular
two documents differing only in field order — receive the same id. -/
theorem es_doc_id_content_determined :
    (∀ doc : List (String × PyVal), es_doc_id doc = uuid5 NAMESPACE_DNS (jsonDump doc)) ∧
    (∀ m1 m2 : List (String × PyVal), (dkeys m1).Nodup → (dkeys m2).Nodup →
      (∀ k ∈ dkeys m1 ++ dkeys m2, dlookup k m1 = dlookup k m2) →
      es_doc_id m1 = es_doc_id m2) ∧
    (∀ m1 m2 : List (String × PyVal), List.Perm m1 m2 → (dkeys m1).Nodup →
      es_doc_id m1 = es_doc_id m2) := by
  refine ⟨fun doc => rfl, ?_, ?_⟩
  · intro m1 m2 h1 h2 hagree
    unfold es_doc_id
    rw [jsonDump_congr h1 h2 (dlookup_ext hagree)]
  · intro m1 m2 hp h1
    unfold es_doc_id
    rw [jsonDump_congr h1 (((hp.map Prod.fst).nodup_iff).mp h1) (dlookup_perm hp h1)]

/-- Witness for C3: the same two-field document in both field orders. -/
theorem es_doc_id_content_determined_witness :
    ((dkeys [("a", PyVal.s "x"), ("b", PyVal.n ⟨false, [1], none⟩)]).Nodup ∧
      (dkeys [("b", PyVal.n ⟨false, [1], none⟩), ("a", PyVal.s "x")]).Nodup ∧
      (∀ k ∈ dkeys [("a", PyVal.s "x"), ("b", PyVal.n ⟨false, [1], none⟩)] ++
          dkeys [("b", PyVal.n ⟨false, [1], none⟩), ("a", PyVal.s "x")],
        dlookup k [("a", PyVal.s "x"), ("b", PyVal.n ⟨false, [1], none⟩)] =
          dlookup k [("b", PyVal.n ⟨false, [1], none⟩), ("a", PyVal.s "x")])) ∧
    es_doc_id [("a", PyVal.s "x"), ("b", PyVal.n ⟨false, [1], none⟩)] =
      es_doc_id [("b", PyVal.n ⟨false, [1], none⟩), ("a", PyVal.s "x")] :=
  ⟨⟨by decide, by decide, by decide⟩,
    es_doc_id_content_determined.2.1 _ _ (by decide) (by decide) (by decide)⟩

/-!
## Bulk-encoder document and index-name lemmas
-/

theorem dlookup_merge_dict (t d : List (String × PyVal)) (k : String) :
    dlookup k (merge_dict t d) = (dlookup k t).or (dlookup k d) := by
  unfold merge_dict
  rw [dlookup_append]
  cases hl : dlookup k t with
  | some v => rfl
  | none =>
      rw [dlookup_filter (fun key => (dlookup key t).isNone) k d (by simp [hl])]

/-- The document the bulk encoder builds, as a mapping: the `timestamp`
field holds the formatted effective timestamp, and every other key gets the
field value if present, else the sample metadata value, else the configured
default metadata value. -/
theorem es_doc_lookup (cfgMeta metadata values : List (String × PyVal))
    (ts : Option ℚ) (recv : ℚ) (k : String) :
    dlookup k (es_doc cfgMeta metadata values ts recv) =
      if k = "timestamp" then some (PyVal.s (tsStr (es_effective_ts ts recv)))
      else ((dlookup k values).or (dlookup k metadata)).or (dlookup k cfgMeta) := by
  unfold es_doc
  rw [dlookup_dictSet]
  by_cases h : k = "timestamp"
  · simp [h]
  · have h2 : ¬ "timestamp" = k := fun hh => h hh.symm
    rw [if_neg h2, if_neg h, dlookup_merge_dict, dlookup_merge_dict]
    cases dlookup k values <;> rfl

/-- **C4**: with an index-naming function configured, `process_values` calls
it as `index_name(bucket, values, timestamp)` after injecting `bucket` into
the (timestamp-bearing) document, and emits nothing when the resolved name
is empty; without one the index name is the bucket, and an empty bucket
likewise drops the Sample.  The model is a total function — returning `[]`,
never an error — so the drop is silent by construction. -/
theorem es_index_name_resolution :
    (∀ (cfgMeta : List (String × PyVal)) (f : String → List (String × PyVal) → ℚ → String)
        (typeName : Option String) (recv : ℚ) (bucket : String)
        (values : List (String × PyVal)) (ts : Option ℚ) (metadata : List (String × PyVal)),
      es_process_values cfgMeta (some f) typeName recv bucket values ts metadata =
        (if f bucket (dictSet (es_doc cfgMeta metadata values ts recv) "bucket" (PyVal.s bucket))
            (es_effective_ts ts recv) = "" then []
         else
           [es_req_line
              (f bucket (dictSet (es_doc cfgMeta metadata values ts recv) "bucket" (PyVal.s bucket))
                (es_effective_ts ts recv))
              (match typeName with
               | some t => if t = "" then bucket else t
               | none => bucket)
              (es_doc_id (dictSet (es_doc cfgMeta metadata values ts recv) "bucket" (PyVal.s bucket))) ++
            "\n" ++
            jsonDump (dictSet (es_doc cfgMeta metadata values ts recv) "bucket" (PyVal.s bucket)) ++
            "\n"])) ∧
    (∀ (cfgMeta : List (String × PyVal)) (typeName : Option String) (recv : ℚ)
        (values : List (String × PyVal)) (ts : Option ℚ) (metadata : List (String × PyVal)),
      es_process_values cfgMeta none typeName recv "" values ts metadata = []) ∧
    (∀ (cfgMeta : List (String × PyVal)) (f : String → List (String × PyVal) → ℚ → String)
        (typeName : Option String) (recv : ℚ) (bucket : String)
        (values : List (String × PyVal)) (ts : Option ℚ) (metadata : List (String × PyVal)),
      f bucket (dictSet (es_doc cfgMeta metadata values ts recv) "bucket" (PyVal.s bucket))
          (es_effective_ts ts recv) = "" →
      es_process_values cfgMeta (some f) typeName recv bucket values ts metadata = []) := by
  refine ⟨fun cfgMeta f typeName recv bucket values ts metadata => rfl,
    fun cfgMeta typeName recv values ts metadata => rfl, ?_⟩
  intro cfgMeta f typeName recv bucket values ts metadata hf
  simp [es_process_values, hf]

/-- Witness for C4: a configured index-naming function that resolves to the
empty name makes the scenario Sample vanish without error. -/
theorem es_index_name_resolution_witness :
    (fun (_ : String) (_ : List (String × PyVal)) (_ : ℚ) => "") "cpu"
        (dictSet (es_doc [] [("host", PyVal.s "a1")]
          [("idle", PyVal.n ⟨false, [9, 7], some [5]⟩)] (some 1700000000) 1700000000)
          "bucket" (PyVal.s "cpu")) (es_effective_ts (some 1700000000) 1700000000) = "" ∧
    es_process_values [] (some (fun _ _ _ => "")) none 1700000000 "cpu"
      [("idle", PyVal.n ⟨false, [9, 7], some [5]⟩)] (some 1700000000)
      [("host", PyVal.s "a1")] = [] :=
  ⟨rfl, es_index_name_resolution.2.2 [] (fun _ _ _ => "") none 1700000000 "cpu"
    [("idle", PyVal.n ⟨false, [9, 7], some [5]⟩)] (some 1700000000)
    [("host", PyVal.s "a1")] rfl⟩

/-- **C5** (amended): the emitted document equals `values` merged with
`metadata` (and the configured default metadata) with explicit field values
winning on key collision, plus a `timestamp` field holding the effective
timestamp (the event timestamp if provided and nonzero, else
`receive_timestamp`) formatted in UTC as `YYYY-MM-DD HH:MM:SS.mmm`; the
`bucket` field is injected into the document only when an index-naming
function is configured.  The scenario Sample with no index-naming function
yields index name `"cpu"` and one buffered fragment of two
newline-terminated NDJSON lines whose document line is
`{"host":"a1","idle":97.5,"timestamp":"2023-11-14 22:13:20.000"}` —
without a `bucket` field. -/
theorem es_document_contents :
    (∀ (cfgMeta metadata values : List (String × PyVal)) (ts : Option ℚ) (recv : ℚ)
        (k : String),
      dlookup k (es_doc cfgMeta metadata values ts recv) =
        if k = "timestamp" then some (PyVal.s (tsStr (es_effective_ts ts recv)))
        else ((dlookup k values).or (dlookup k metadata)).or (dlookup k cfgMeta)) ∧
    (∀ (cfgMeta : List (String × PyVal)) (typeName : Option String) (recv : ℚ)
        (bucket : String) (values : List (String × PyVal)) (ts : Option ℚ)
        (metadata : List (String × PyVal)),
      ¬ bucket = "" →
      es_process_values cfgMeta none typeName recv bucket values ts metadata =
        [es_req_line bucket
            (match typeName with
             | some t => if t = "" then bucket else t
             | none => bucket)
            (es_doc_id (es_doc cfgMeta metadata values ts recv)) ++ "\n" ++
          jsonDump (es_doc cfgMeta metadata values ts recv) ++ "\n"]) ∧
    jsonDump (es_doc [] [("host", PyVal.s "a1")]
        [("idle", PyVal.n ⟨false, [9, 7], some [5]⟩)] (some 1700000000) 1700000000) =
      "\x7b\"host\":\"a1\",\"idle\":97.5,\"timestamp\":\"2023-11-14 22:13:20.000\"\x7d" ∧
    es_process_values [] none none 1700000000 "cpu"
        [("idle", PyVal.n ⟨false, [9, 7], some [5]⟩)] (some 1700000000)
        [("host", PyVal.s "a1")] =
      [es_req_line "cpu" "cpu"
          (es_doc_id (es_doc [] [("host", PyVal.s "a1")]
            [("idle", PyVal.n ⟨false, [9, 7], some [5]⟩)] (some 1700000000) 1700000000)) ++
        "\n" ++
        "\x7b\"host\":\"a1\",\"idle\":97.5,\"timestamp\":\"2023-11-14 22:13:20.000\"\x7d" ++
        "\n"] := by
  have hdump : jsonDump (es_doc [] [("host", PyVal.s "a1")]
      [("idle", PyVal.n ⟨false, [9, 7], some [5]⟩)] (some 1700000000) 1700000000) =
      "\x7b\"host\":\"a1\",\"idle\":97.5,\"timestamp\":\"2023-11-14 22:13:20.000\"\x7d" := by
    decide
  refine ⟨es_doc_lookup, fun cfgMeta typeName recv bucket values ts metadata hb => ?_,
    hdump, ?_⟩
  · simp [es_process_values, hb]
  · rw [← hdump]
    simp [es_process_values]

/-- Witness for the amended C5 at the scenario Sample (no index-naming
function, nonempty bucket). -/
theorem es_document_contents_witness :
    ¬ ("cpu" : String) = "" ∧
    es_process_values [] none none 1700000000 "cpu"
        [("idle", PyVal.n ⟨false, [9, 7], some [5]⟩)] (some 1700000000)
        [("host", PyVal.s "a1")] =
      [es_req_line "cpu" "cpu"
          (es_doc_id (es_doc [] [("host", PyVal.s "a1")]
            [("idle", PyVal.n ⟨false, [9, 7], some [5]⟩)] (some 1700000000) 1700000000)) ++
        "\n" ++
        jsonDump (es_doc [] [("host", PyVal.s "a1")]
          [("idle", PyVal.n ⟨false, [9, 7], some [5]⟩)] (some 1700000000) 1700000000) ++
        "\n"] :=
  ⟨by decide, es_document_contents.2.1 [] none 1700000000 "cpu"
    [("idle", PyVal.n ⟨false, [9, 7], some [5]⟩)] (some 1700000000)
    [("host", PyVal.s "a1")] (by decide)⟩

/-- **C5** counterexample: with no index-naming function the code never
injects `bucket` into the document, so the scenario document has no
`"bucket"` key and is not the claimed
`{"bucket":"cpu","host":"a1","idle":97.5,"timestamp":"2023-11-14 22:13:20.000"}`. -/
theorem es_document_no_bucket_counterexample :
    dlookup "bucket" (es_doc [] [("host", PyVal.s "a1")]
        [("idle", PyVal.n ⟨false, [9, 7], some [5]⟩)] (some 1700000000) 1700000000) = none ∧
    jsonDump (es_doc [] [("host", PyVal.s "a1")]
        [("idle", PyVal.n ⟨false, [9, 7], some [5]⟩)] (some 1700000000) 1700000000) ≠
      "\x7b\"bucket\":\"cpu\",\"host\":\"a1\",\"idle\":97.5,\"timestamp\":\"2023-11-14 22:13:20.000\"\x7d" := by
  constructor
  · decide
  · decide

/-- **C10**: a falsy event timestamp — absent (`None`) or numerically zero
(`0`, `0.0`) — is replaced by `receive_timestamp` through
`timestamp = timestamp or recv_timestamp`; in particular an event timestamp
of exactly the Unix epoch is treated as absent and is encoded from the
receive timestamp, never as `1970-01-01 00:00:00.000`. -/
theorem es_falsy_timestamp_uses_recv :
    (∀ recv : ℚ, es_effective_ts (some 0) recv = recv ∧ es_effective_ts none recv = recv) ∧
    (∀ (cfgMeta : List (String × PyVal)) (indexFn : Option (String → List (String × PyVal) → ℚ → String))
        (typeName : Option String) (recv : ℚ) (bucket : String)
        (values : List (String × PyVal)) (metadata : List (String × PyVal)),
      es_process_values cfgMeta indexFn typeName recv bucket values (some 0) metadata =
        es_process_values cfgMeta indexFn typeName recv bucket values none metadata) ∧
    dlookup "timestamp" (es_doc [] [] [] (some 0) 1700000000) =
      some (PyVal.s "2023-11-14 22:13:20.000") ∧
    dlookup "timestamp" (es_doc [] [] [] (some 0) 1700000000) ≠
      some (PyVal.s "1970-01-01 00:00:00.000") := by
  have he : ∀ recv : ℚ, es_effective_ts (some 0) recv = recv := by
    intro recv
    simp [es_effective_ts]
  refine ⟨fun recv => ⟨he recv, rfl⟩, ?_, by decide, by decide⟩
  intro cfgMeta indexFn typeName recv bucket values metadata
  have he2 : es_effective_ts (some 0) recv = es_effective_ts none recv := he recv
  simp only [es_process_values, es_doc, he2]

/-!
## Bulk transport, buffer retention, supervisor, shutdown
-/

/-- **C6**: `bulk_upload` sends the full accumulated NDJSON body as the
payload of one HTTP `POST /_bulk` request (with a configured gzip/deflate
mode, the corresponding library compressor applied to exactly that body;
any other mode sends it unchanged), and it fails with a `ConnectionError`
exactly when the response status is not 200; on a 200 response no error is
raised and the response body is read (consumed). -/
theorem bulk_upload_request_and_status :
    ∀ (compression : String) (gz df : List Nat → List Nat) (docs : List String)
      (resp : HttpResponse),
      ((bulk_upload compression gz df docs resp).1.method = "POST" ∧
        (bulk_upload compression gz df docs resp).1.path = "/_bulk") ∧
      (compression ≠ "gzip" → compression ≠ "deflate" →
        (bulk_upload compression gz df docs resp).1.body = utf8Encode (String.join docs)) ∧
      (compression = "gzip" →
        (bulk_upload compression gz df docs resp).1.body = gz (utf8Encode (String.join docs))) ∧
      (compression = "deflate" →
        (bulk_upload compression gz df docs resp).1.body = df (utf8Encode (String.join docs))) ∧
      ((bulk_upload compression gz df docs resp).2 = .ok resp.body ↔ resp.status = 200) ∧
      ((∃ e, (bulk_upload compression gz df docs resp).2 = .error e) ↔ resp.status ≠ 200) := by
  intro compression gz df docs resp
  refine ⟨⟨rfl, rfl⟩, ?_, ?_, ?_, ?_, ?_⟩
  · intro h1 h2
    simp [bulk_upload, h1, h2]
  · intro h1
    simp [bulk_upload, h1]
  · intro h1
    subst h1
    simp [bulk_upload]
  · by_cases hs : resp.status = 200 <;> simp [bulk_upload, hs]
  · by_cases hs : resp.status = 200 <;> simp [bulk_upload, hs]

/-- Witness for C6: identity compression, a one-line body, a 200 response. -/
theorem bulk_upload_request_and_status_witness :
    ("identity" : String) ≠ "gzip" ∧ ("identity" : String) ≠ "deflate" ∧
    (bulk_upload "identity" id id ["a\n"] ⟨200, [1, 2]⟩).1.body =
      utf8Encode (String.join ["a\n"]) ∧
    ((bulk_upload "identity" id id ["a\n"] ⟨200, [1, 2]⟩).2 = .ok [1, 2] ↔
      (200 : Nat) = 200) :=
  ⟨by decide, by decide,
    (bulk_upload_request_and_status "identity" id id ["a\n"] ⟨200, [1, 2]⟩).2.1
      (by decide) (by decide),
    (bulk_upload_request_and_status "identity" id id ["a\n"] ⟨200, [1, 2]⟩).2.2.2.2.1⟩

/-- **C7**: one flush attempt always hands `push` the whole buffer (no
removal, reordering or duplication); if the push fails the buffer
afterwards equals the buffer before, and after a successful
`push_chunk`-style push the sent fragments are cleared, so a retry after a
failure re-sends exactly the previously-unflushed fragments in their
original order (plus anything appended since). -/
theorem flush_attempt_retention :
    (∀ (push : List String → Except String (List String)) (buffer : List String),
      (flush_attempt push buffer).1 = buffer ∧
      (∀ e, push buffer = .error e → (flush_attempt push buffer).2 = buffer) ∧
      (∀ leftover, push buffer = .ok leftover → (flush_attempt push buffer).2 = leftover)) ∧
    (∀ (upload : List String → Except String Unit) (chunk : List String),
      (∀ e, upload chunk = .error e → es_push_chunk upload chunk = .error e) ∧
      (upload chunk = .ok () → es_push_chunk upload chunk = .ok [])) ∧
    (∀ (push1 push2 : List String → Except String (List String))
        (buffer newFrags : List String) (e : String),
      push1 buffer = .error e →
      (flush_attempt push2 ((flush_attempt push1 buffer).2 ++ newFrags)).1 =
        buffer ++ newFrags) := by
  refine ⟨?_, ?_, ?_⟩
  · intro push buffer
    refine ⟨rfl, ?_, ?_⟩
    · intro e he
      simp [flush_attempt, he]
    · intro leftover hl
      simp [flush_attempt, hl]
  · intro upload chunk
    constructor
    · intro e he
      simp [es_push_chunk, he, Except.map]
    · intro ho
      simp [es_push_chunk, ho, Except.map]
  · intro push1 push2 buffer newFrags e he
    simp [flush_attempt, he]

/-- Witness for C7: a failing then a succeeding push over concrete fragments. -/
theorem flush_attempt_retention_witness :
    ((fun _ : List String => (Except.error "reset" : Except String (List String))) ["a\n", "b\n"] =
      .error "reset") ∧
    (flush_attempt (fun _ => .error "reset") ["a\n", "b\n"]).2 = ["a\n", "b\n"] ∧
    (flush_attempt (fun _ => .ok []) ["a\n", "b\n"]).2 = [] ∧
    (flush_attempt (fun _ => .ok [])
        ((flush_attempt (fun _ => .error "reset") ["a\n", "b\n"]).2 ++ ["c\n"])).1 =
      ["a\n", "b\n", "c\n"] :=
  ⟨rfl,
    (flush_attempt_retention.1 (fun _ => .error "reset") ["a\n", "b\n"]).2.1 "reset" rfl,
    (flush_attempt_retention.1 (fun _ => .ok []) ["a\n", "b\n"]).2.2 [] rfl,
    flush_attempt_retention.2.2 (fun _ => .error "reset") (fun _ => .ok [])
      ["a\n", "b\n"] ["c\n"] "reset" rfl⟩

/-- A dead client is always found during the fan-out of a received sample. -/
theorem forwardSample_detects (clients : List Bool) (i s : Nat) (h : false ∈ clients) :
    (forwardSample clients i s).2 = true := by
  induction clients generalizing i with
  | nil => simp at h
  | cons alive rest ih =>
      cases halive : alive with
      | false => simp [forwardSample]
      | true =>
          have h2 : false ∈ rest := by
            rcases List.mem_cons.mp h with h3 | h3
            · rw [halive] at h3
              exact absurd h3 (by decide)
            · exact h3
          simp [forwardSample, ih (i + 1) h2]

/-- The fan-out of one sample over a live prefix followed by a dead client
sends to exactly the prefix, in order, and reports the dead client. -/
theorem forwardSample_prefix (alivePrefix rest : List Bool) (i s : Nat)
    (hp : ∀ b ∈ alivePrefix, b = true) :
    forwardSample (alivePrefix ++ false :: rest) i s =
      ((List.range alivePrefix.length).map (fun j => (i + j, s)), true) := by
  induction alivePrefix generalizing i with
  | nil => simp [forwardSample]
  | cons b bp ih =>
      have hb : b = true := hp b (List.mem_cons_self b bp)
      subst hb
      have ih2 := ih (i + 1) (fun b2 h2 => hp b2 (List.mem_cons_of_mem _ h2))
      have hmap : (List.range (bp.length + 1)).map (fun j => (i + j, s)) =
          (i, s) :: (List.range bp.length).map (fun j => (i + 1 + j, s)) := by
        rw [List.range_succ_eq_map]
        simp only [List.map_cons, List.map_map, Nat.add_zero]
        congr 1
        apply List.map_congr_left
        intro j _
        have hj : i + Nat.succ j = i + 1 + j := by omega
        simp [Function.comp, hj]
      simp [List.cons_append, forwardSample, ih2, List.length_cons, hmap]

/-- **C8** (amended): the supervisor checks client liveness only on
iterations that receive a Sample (an empty-queue iteration checks only the
collectors), so a killed client is detected on the next iteration that
receives a Sample: that iteration finds it not alive, initiates the fatal
shutdown, sends the Sample only to the clients preceding the first dead one
in registration order, and the loop processes no further events — the
Supervisor never sends a Sample on any channel after the detection. -/
theorem supervisor_dead_client_detection :
    (∀ (servers clients : List Bool) (s : Nat),
      false ∈ clients →
      (runStep servers clients (QEvent.sample s)).2 =
        LoopResult.fatalShutdown "Client process died. Exiting.") ∧
    (∀ (servers : List Bool) (alivePrefix rest : List Bool) (s : Nat),
      (∀ b ∈ alivePrefix, b = true) →
      (runStep servers (alivePrefix ++ false :: rest) (QEvent.sample s)).1 =
        (List.range alivePrefix.length).map (fun j => (j, s))) ∧
    (∀ (servers clients : List Bool) (s : Nat) (evs : List QEvent),
      false ∈ clients →
      runLoop servers clients (QEvent.sample s :: evs) =
        ((runStep servers clients (QEvent.sample s)).1,
          LoopResult.fatalShutdown "Client process died. Exiting.")) := by
  refine ⟨?_, ?_, ?_⟩
  · intro servers clients s h
    simp [runStep, forwardSample_detects clients 0 s h]
  · intro servers alivePrefix rest s hp
    have hd : false ∈ alivePrefix ++ false :: rest :=
      List.mem_append_right _ (List.mem_cons_self false rest)
    simp [runStep, forwardSample_prefix alivePrefix rest 0 s hp,
      forwardSample_detects _ 0 s hd]
  · intro servers clients s evs h
    have h2 := forwardSample_detects clients 0 s h
    simp [runLoop, runStep, h2]

/-- Witness for the amended C8: three clients, the middle one dead; a
received sample goes only to client 0, the iteration turns fatal, and a
queued second sample is never processed. -/
theorem supervisor_dead_client_detection_witness :
    (false ∈ [true, false, true]) ∧ (∀ b ∈ [true], b = true) ∧
    (runStep [true] [true, false, true] (QEvent.sample 7)).2 =
      LoopResult.fatalShutdown "Client process died. Exiting." ∧
    (runStep [true] [true, false, true] (QEvent.sample 7)).1 = [(0, 7)] ∧
    runLoop [true] [true, false, true] [QEvent.sample 7, QEvent.sample 8] =
      ((runStep [true] [true, false, true] (QEvent.sample 7)).1,
        LoopResult.fatalShutdown "Client process died. Exiting.") := by
  refine ⟨by decide, by decide,
    supervisor_dead_client_detection.1 [true] [true, false, true] 7 (by decide), ?_,
    supervisor_dead_client_detection.2.2 [true] [true, false, true] 7
      [QEvent.sample 8] (by decide)⟩
  have h := supervisor_dead_client_detection.2.1 [true] [true] [true] 7 (by decide)
  simpa using h

/-- **C8** counterexample: the claim promises detection on "the
Supervisor's next loop iteration (within the bounded poll interval)", but
an iteration that finds the queue empty checks only collector liveness —
with the single client dead, two empty-queue iterations pass without any
shutdown being initiated (the spec itself flags this in §9). -/
theorem supervisor_idle_no_detection_counterexample :
    runLoop [true] [false] [QEvent.empty, QEvent.empty] = ([], LoopResult.running) := by
  decide

/-- **C9**: the shutdown sequence closes and joins every collector, then
sends the sentinel to and joins every client, then force-terminates every
(non-`SyncManager`) child still alive, and it raises the fatal error to its
caller (non-zero exit) exactly when a survivor had to be terminated or an
error message was passed in — a clean shutdown returns normally. -/
theorem bucky_shutdown_correct :
    ∀ (servers clients : Nat) (survivors : List String) (err : String),
      (bucky_shutdown servers clients survivors err).1 =
        (List.range servers).flatMap
          (fun i => [SdAction.closeServer i, SdAction.joinServer i]) ++
        ((List.range clients).flatMap
          (fun i => [SdAction.sendSentinel i, SdAction.joinClient i]) ++
        (survivors.filter (fun n => !(n.startsWith "SyncManager"))).flatMap
          (fun c => [SdAction.terminateChild c, SdAction.joinChild c])) ∧
      ((bucky_shutdown servers clients survivors err).2 = none ↔
        survivors.filter (fun n => !(n.startsWith "SyncManager")) = [] ∧ err = "") := by
  intro servers clients survivors err
  constructor
  · simp [bucky_shutdown]
  · by_cases hc : survivors.filter (fun n => !(n.startsWith "SyncManager")) = []
    · by_cases he : err = "" <;> simp [bucky_shutdown, hc, he]
    · by_cases he : err = ""
      · have hmsg : ("Not all children died gracefully: " ++
            String.intercalate ", " (survivors.filter (fun n => !(n.startsWith "SyncManager")))) ≠
            "" := by
          intro hh
          have := congrArg String.data hh
          simp [string_data_append] at this
        simp [bucky_shutdown, hc, he, hmsg]
      · simp [bucky_shutdown, hc, he]

end Bucky
